import Mathlib

/-!
Verification of `grigri.dates.range` (file `src/grigri/dates/range.py`).

A Python `datetime` is embedded as a calendar day number (an integer,
days since an arbitrary epoch) together with a time-of-day component
(seconds since midnight).  `timedelta(k)` addition for an integer `k`
only moves the day number.  `pd.date_range(a, b, normalize=True)` is
the list of consecutive day numbers from the normalized `a` to the
normalized `b` (empty when `a`'s day exceeds `b`'s day).
-/

namespace Grigri

/-- A `datetime` value: a day number plus a time-of-day (seconds past
midnight).  `tod = 0` means midnight, i.e. a normalized date. -/
structure DateTime where
  day : Int
  tod : Nat
deriving DecidableEq, Repr

/-- Adding `timedelta(k)` whole days to a datetime: the time-of-day is
preserved. -/
def DateTime.addDays (a : DateTime) (k : Int) : DateTime :=
  ⟨a.day + k, a.tod⟩

/-- The `<` comparison on Python datetimes: lexicographic on the day and
the time-of-day. -/
def DateTime.lt (a b : DateTime) : Prop :=
  a.day < b.day ∨ (a.day = b.day ∧ a.tod < b.tod)

instance (a b : DateTime) : Decidable (DateTime.lt a b) := by
  unfold DateTime.lt
  exact inferInstance

/-- The list `[lo, lo+1, ..., lo+n-1]` of `n` consecutive day numbers. -/
def dayList (lo : Int) : Nat → List Int
  | 0 => []
  | n + 1 => lo :: dayList (lo + 1) n

/-- Embeds `pd.date_range(start, stop, normalize=True)`: the inclusive
daily sequence from the normalized start to the normalized stop, empty
when the start day is after the stop day. -/
def pd_date_range (start stop : DateTime) : List Int :=
  dayList start.day (stop.day - start.day + 1).toNat

/-- Embeds `day_range` from `src/grigri/dates/range.py`.  The failing
`assert num_days != 0` is modelled by returning `none`; the
`anchor_date=None` wall-clock default is outside the embedding, so the
anchor is explicit. -/
def day_range (num_days : Int) (anchor_date : DateTime) (inclusive : Bool) :
    Option (List Int) :=
  if num_days = 0 then none
  else
    let shift : Int := if 0 < num_days then 1 else -1
    let swing_date := anchor_date.addDays (num_days - shift)
    let anchor2 := if inclusive then anchor_date else anchor_date.addDays shift
    let swing2 := if inclusive then swing_date else swing_date.addDays shift
    if DateTime.lt swing2 anchor2 then
      some (pd_date_range swing2 anchor2)
    else
      some (pd_date_range anchor2 swing2)

/-- The frequency codes accepted by the period boundary resolver:
day, week, month, quarter, year. -/
inductive Freq
  | d | w | m | q | y
deriving DecidableEq, Repr

/-- Modelled from the spec: the period boundary resolver
(`first_of`/`end_of` from `grigri.dates.scalar`, whose source is not in
`src/`).  Per spec section 6 it exposes two functions returning the first
and last calendar date of the period of the given frequency containing
`dt`. -/
structure PeriodResolver where
  first_of : DateTime → Freq → Int
  end_of : DateTime → Freq → Int

/-- Modelled from the spec: the resolver's contract, "each returning the
first/last calendar date of the period of the given frequency containing
`dt`", so the calendar day of `dt` always lies between the two
boundaries ("`dt` always falls within its own enclosing period"). -/
def PeriodResolver.Valid (r : PeriodResolver) : Prop :=
  ∀ dt f, r.first_of dt f ≤ dt.day ∧ dt.day ≤ r.end_of dt f

/-- Embeds `date_range` from `src/grigri/dates/range.py`, with the
period boundary resolver passed explicitly (in the source it is the
imported `first_of`/`end_of` pair).  Boundary dates returned by the
resolver are calendar dates, i.e. midnight datetimes. -/
def date_range (r : PeriodResolver) (dt : DateTime) (freq : Freq)
    (full_range : Bool) : List Int :=
  let start_date : DateTime := ⟨r.first_of dt freq, 0⟩
  let end_date : DateTime := if full_range then ⟨r.end_of dt freq, 0⟩ else dt
  pd_date_range start_date end_date

/-- Embeds `week_range`: the pre-bound specialization of `date_range`
fixing the frequency to week. -/
def week_range (r : PeriodResolver) (dt : DateTime) (full_range : Bool) :
    List Int :=
  date_range r dt Freq.w full_range

/-- Embeds `month_range`: the pre-bound specialization of `date_range`
fixing the frequency to month. -/
def month_range (r : PeriodResolver) (dt : DateTime) (full_range : Bool) :
    List Int :=
  date_range r dt Freq.m full_range

/-- Embeds `quarter_range`: the pre-bound specialization of `date_range`
fixing the frequency to quarter. -/
def quarter_range (r : PeriodResolver) (dt : DateTime) (full_range : Bool) :
    List Int :=
  date_range r dt Freq.q full_range

/-- Embeds `year_range`: the pre-bound specialization of `date_range`
fixing the frequency to year. -/
def year_range (r : PeriodResolver) (dt : DateTime) (full_range : Bool) :
    List Int :=
  date_range r dt Freq.y full_range

/-- Day number of a proleptic Gregorian calendar date, with day 0 at
1970-01-01 (the standard civil-from-days correspondence).  Used to state
the concrete scenarios of the spec. -/
def daysFromCivil (y m d : Int) : Int :=
  let y2 := if m ≤ 2 then y - 1 else y
  let era := Int.fdiv y2 400
  let yoe := y2 - era * 400
  let mp := Int.emod (m + 9) 12
  let doy := Int.fdiv (153 * mp + 2) 5 + d - 1
  let doe := yoe * 365 + Int.fdiv yoe 4 - Int.fdiv yoe 100 + doy
  era * 146097 + doe - 719468

/-- A date list is daily-consecutive: each entry is the previous one
plus one day (hence strictly ascending with no gaps). -/
def daily_consecutive (l : List Int) : Prop :=
  ∀ i : Nat, (h : i + 1 < l.length) →
    l.get ⟨i + 1, h⟩ = l.get ⟨i, Nat.lt_of_succ_lt h⟩ + 1

/-- A concrete resolver satisfying the contract: every period is the
single day of `dt` (the day frequency).  Used to instantiate the
resolver-parametric theorems. -/
def dayResolver : PeriodResolver :=
  ⟨fun dt _ => dt.day, fun dt _ => dt.day⟩

/-! ### Helper lemmas about `dayList` and the builders -/

theorem dayList_length (lo : Int) (n : Nat) : (dayList lo n).length = n := by
  induction n generalizing lo with
  | zero => rfl
  | succ m ih => simp [dayList, ih]

theorem dayList_get (lo : Int) (n i : Nat) (h : i < (dayList lo n).length) :
    (dayList lo n).get ⟨i, h⟩ = lo + i := by
  induction n generalizing lo i with
  | zero => simp [dayList] at h
  | succ m ih =>
    cases i with
    | zero => simp [dayList]
    | succ j =>
      have h2 : j < (dayList (lo + 1) m).length := by
        have := dayList_length (lo + 1) m
        have := dayList_length lo (m + 1)
        omega
      have hstep : (dayList lo (m + 1)).get ⟨j + 1, h⟩ =
          (dayList (lo + 1) m).get ⟨j, h2⟩ := rfl
      rw [hstep, ih]
      push_cast
      ring

theorem mem_dayList (x lo : Int) (n : Nat) :
    x ∈ dayList lo n ↔ lo ≤ x ∧ x < lo + n := by
  induction n generalizing lo with
  | zero => simp [dayList]
  | succ m ih =>
    simp only [dayList, List.mem_cons, ih]
    omega

theorem dayList_head (lo : Int) (n : Nat) (h : n ≠ 0) :
    (dayList lo n).head? = some lo := by
  cases n with
  | zero => exact absurd rfl h
  | succ m => rfl

theorem dayList_getLast_succ (lo : Int) (n : Nat) :
    (dayList lo (n + 1)).getLast? = some (lo + n) := by
  induction n generalizing lo with
  | zero => simp [dayList]
  | succ m ih =>
    have h1 : dayList lo (m + 1 + 1) = lo :: (lo + 1) :: dayList (lo + 1 + 1) m :=
      rfl
    rw [h1, List.getLast?_cons_cons]
    have h2 : (lo + 1) :: dayList (lo + 1 + 1) m = dayList (lo + 1) (m + 1) := rfl
    rw [h2, ih]
    congr 1
    push_cast
    ring

theorem dayList_getLast (lo : Int) (n : Nat) (h : n ≠ 0) :
    (dayList lo n).getLast? = some (lo + n - 1) := by
  cases n with
  | zero => exact absurd rfl h
  | succ m =>
    rw [dayList_getLast_succ]
    congr 1
    push_cast
    ring

theorem dayList_ne_nil (lo : Int) (n : Nat) (h : n ≠ 0) : dayList lo n ≠ [] := by
  intro he
  have hl := dayList_length lo n
  rw [he] at hl
  exact h (by simpa using hl.symm)

theorem dayList_consecutive (lo : Int) (n : Nat) :
    daily_consecutive (dayList lo n) := by
  intro i h
  rw [dayList_get, dayList_get]
  push_cast
  ring

/-- Closed form of `day_range` for a non-zero day count: the result is
the list of `n.natAbs` consecutive days starting at the lower bound
determined by the sign of `n` and the inclusivity flag. -/
theorem day_range_eq (n : Int) (a : DateTime) (inc : Bool) (h : n ≠ 0) :
    day_range n a inc =
      some (dayList
        (if inc then (if 0 < n then a.day else a.day + n + 1)
         else (if 0 < n then a.day + 1 else a.day + n))
        n.natAbs) := by
  obtain ⟨ad, atod⟩ := a
  simp only [day_range, pd_date_range, DateTime.addDays, DateTime.lt, if_neg h]
  split_ifs <;>
    (refine congrArg some ?_; congr 1 <;> (simp only [] at *; omega))

/-- Closed form of `day_range` in the inclusive case. -/
theorem day_range_eq_incl (n : Int) (a : DateTime) (h : n ≠ 0) :
    day_range n a true =
      some (dayList (if 0 < n then a.day else a.day + n + 1) n.natAbs) :=
  (day_range_eq n a true h).trans rfl

/-- Closed form of `day_range` in the exclusive case. -/
theorem day_range_eq_excl (n : Int) (a : DateTime) (h : n ≠ 0) :
    day_range n a false =
      some (dayList (if 0 < n then a.day + 1 else a.day + n) n.natAbs) :=
  (day_range_eq n a false h).trans rfl

/-- Closed form of `date_range` with `full_range = true`. -/
theorem date_range_eq_true (r : PeriodResolver) (dt : DateTime) (f : Freq) :
    date_range r dt f true =
      dayList (r.first_of dt f) ((r.end_of dt f - r.first_of dt f + 1).toNat) :=
  rfl

/-- Closed form of `date_range` with `full_range = false`. -/
theorem date_range_eq_false (r : PeriodResolver) (dt : DateTime) (f : Freq) :
    date_range r dt f false =
      dayList (r.first_of dt f) ((dt.day - r.first_of dt f + 1).toNat) :=
  rfl

/-! ### Claim theorems -/

/-- C1: for every non-zero integer `n` and every date `a`,
`day_range(n, a, inclusive := true)` returns a date sequence of length
`|n|` that is strictly ascending at daily step with no gaps and that
contains `a` normalized to midnight (its day number). -/
theorem C1_day_range_inclusive (n : Int) (a : DateTime) (h : n ≠ 0) :
    ∃ l, day_range n a true = some l ∧
      l.length = n.natAbs ∧ daily_consecutive l ∧ a.day ∈ l := by
  refine ⟨_, day_range_eq_incl n a h, dayList_length _ _,
    dayList_consecutive _ _, ?_⟩
  rw [mem_dayList]
  split_ifs with hp <;> omega

theorem C1_witness :
    ∃ l, day_range 3 ⟨0, 0⟩ true = some l ∧
      l.length = (3 : Int).natAbs ∧ daily_consecutive l ∧ (0 : Int) ∈ l :=
  C1_day_range_inclusive 3 ⟨0, 0⟩ (by decide)

/-- C2: for every date `a` (and either inclusivity flag), calling
`day_range` with `num_days = 0` fails the assertion, modelled as `none`:
no range is returned when `num_days = 0`. -/
theorem C2_day_range_zero (a : DateTime) (inc : Bool) :
    day_range 0 a inc = none := by
  unfold day_range
  exact if_pos rfl

/-- C3: for every non-zero integer `n` and every date `a`,
`day_range(n, a, inclusive := false)` returns a date sequence of length
`|n|` that does not contain `a`. -/
theorem C3_day_range_exclusive (n : Int) (a : DateTime) (h : n ≠ 0) :
    ∃ l, day_range n a false = some l ∧ l.length = n.natAbs ∧ a.day ∉ l := by
  refine ⟨_, day_range_eq_excl n a h, dayList_length _ _, ?_⟩
  rw [mem_dayList]
  split_ifs with hp <;> omega

theorem C3_witness :
    ∃ l, day_range 2 ⟨0, 0⟩ false = some l ∧
      l.length = (2 : Int).natAbs ∧ (0 : Int) ∉ l :=
  C3_day_range_exclusive 2 ⟨0, 0⟩ (by decide)

/-- C4: for every date `d` and frequency `f`, given a period boundary
resolver satisfying its contract, `date_range(d, f, full_range := true)`
is the inclusive daily sequence whose first element is `first_of(d, f)`,
whose last element is `end_of(d, f)`, and which contains the calendar
day of `d`. -/
theorem C4_date_range_full (r : PeriodResolver) (dt : DateTime) (f : Freq)
    (h : r.Valid) :
    (date_range r dt f true).head? = some (r.first_of dt f) ∧
    (date_range r dt f true).getLast? = some (r.end_of dt f) ∧
    dt.day ∈ date_range r dt f true ∧
    daily_consecutive (date_range r dt f true) := by
  obtain ⟨h1, h2⟩ := h dt f
  rw [date_range_eq_true]
  refine ⟨dayList_head _ _ (by omega), ?_, ?_, dayList_consecutive _ _⟩
  · rw [dayList_getLast _ _ (by omega)]
    congr 1
    omega
  · rw [mem_dayList]
    omega

theorem C4_witness :
    (date_range dayResolver ⟨5, 0⟩ Freq.m true).head? = some 5 ∧
    (date_range dayResolver ⟨5, 0⟩ Freq.m true).getLast? = some 5 ∧
    (5 : Int) ∈ date_range dayResolver ⟨5, 0⟩ Freq.m true ∧
    daily_consecutive (date_range dayResolver ⟨5, 0⟩ Freq.m true) :=
  C4_date_range_full dayResolver ⟨5, 0⟩ Freq.m
    (fun _ _ => ⟨le_refl _, le_refl _⟩)

/-- C5: for every date `d` and frequency `f`, given a period boundary
resolver satisfying its contract, `date_range(d, f, full_range := false)`
is the inclusive daily sequence whose first element is `first_of(d, f)`
and whose last element is `d` normalized to midnight (its day number). -/
theorem C5_date_range_ptd (r : PeriodResolver) (dt : DateTime) (f : Freq)
    (h : r.Valid) :
    (date_range r dt f false).head? = some (r.first_of dt f) ∧
    (date_range r dt f false).getLast? = some dt.day ∧
    daily_consecutive (date_range r dt f false) := by
  obtain ⟨h1, _⟩ := h dt f
  rw [date_range_eq_false]
  refine ⟨dayList_head _ _ (by omega), ?_, dayList_consecutive _ _⟩
  rw [dayList_getLast _ _ (by omega)]
  congr 1
  omega

theorem C5_witness :
    (date_range dayResolver ⟨7, 3⟩ Freq.q false).head? = some 7 ∧
    (date_range dayResolver ⟨7, 3⟩ Freq.q false).getLast? = some 7 ∧
    daily_consecutive (date_range dayResolver ⟨7, 3⟩ Freq.q false) :=
  C5_date_range_ptd dayResolver ⟨7, 3⟩ Freq.q
    (fun _ _ => ⟨le_refl _, le_refl _⟩)

/-- C6: `day_range(-6, 2013-09-05, inclusive := false)` returns exactly
the ascending daily sequence 2013-08-30, 2013-08-31, 2013-09-01,
2013-09-02, 2013-09-03, 2013-09-04, of length 6. -/
theorem C6_scenario1 :
    day_range (-6) ⟨daysFromCivil 2013 9 5, 0⟩ false =
      some [daysFromCivil 2013 8 30, daysFromCivil 2013 8 31,
            daysFromCivil 2013 9 1, daysFromCivil 2013 9 2,
            daysFromCivil 2013 9 3, daysFromCivil 2013 9 4] := by
  decide

/-- C7: for every date `d`, frequency `f` and either value of
`full_range`, given a period boundary resolver satisfying its contract,
the bounds used by `date_range` satisfy `start_date ≤ end_date`
(`first_of(d,f) ≤ end_of(d,f)` and `first_of(d,f) ≤ d`), so `date_range`
never constructs an empty (or descending) range. -/
theorem C7_date_range_bounds (r : PeriodResolver) (dt : DateTime) (f : Freq)
    (fr : Bool) (h : r.Valid) :
    r.first_of dt f ≤ r.end_of dt f ∧ r.first_of dt f ≤ dt.day ∧
    date_range r dt f fr ≠ [] := by
  obtain ⟨h1, h2⟩ := h dt f
  refine ⟨le_trans h1 h2, h1, ?_⟩
  cases fr with
  | true =>
    rw [date_range_eq_true]
    exact dayList_ne_nil _ _ (by omega)
  | false =>
    rw [date_range_eq_false]
    exact dayList_ne_nil _ _ (by omega)

theorem C7_witness :
    dayResolver.first_of ⟨2, 0⟩ Freq.y ≤ dayResolver.end_of ⟨2, 0⟩ Freq.y ∧
    dayResolver.first_of ⟨2, 0⟩ Freq.y ≤ (2 : Int) ∧
    date_range dayResolver ⟨2, 0⟩ Freq.y true ≠ [] :=
  C7_date_range_bounds dayResolver ⟨2, 0⟩ Freq.y true
    (fun _ _ => ⟨le_refl _, le_refl _⟩)

/-- C8: each frequency-bound wrapper equals the period-range builder
with its frequency fixed (week, month, quarter, year), with no other
logic. -/
theorem C8_wrappers (r : PeriodResolver) (dt : DateTime) (fr : Bool) :
    week_range r dt fr = date_range r dt Freq.w fr ∧
    month_range r dt fr = date_range r dt Freq.m fr ∧
    quarter_range r dt fr = date_range r dt Freq.q fr ∧
    year_range r dt fr = date_range r dt Freq.y fr :=
  ⟨rfl, rfl, rfl, rfl⟩

/-- C9: for every frequency `f` and every date `d` that is exactly the
first day of its enclosing period (`first_of(d, f) = d`),
`date_range(d, f, full_range := false)` returns the single-date range
containing only `d`. -/
theorem C9_boundary_degenerate (r : PeriodResolver) (dt : DateTime) (f : Freq)
    (hb : r.first_of dt f = dt.day) :
    date_range r dt f false = [dt.day] := by
  rw [date_range_eq_false, hb]
  have h1 : (dt.day - dt.day + 1).toNat = 1 := by omega
  rw [h1]
  rfl

theorem C9_witness :
    date_range dayResolver ⟨4, 0⟩ Freq.w false = [4] :=
  C9_boundary_degenerate dayResolver ⟨4, 0⟩ Freq.w rfl

/-- C10: for every non-zero integer `n`, either inclusivity flag and
every anchor datetime carrying any time-of-day, `day_range` produces the
same date sequence as with the anchor replaced by midnight of the same
calendar day: the time-of-day never affects the output. -/
theorem C10_time_of_day_irrelevant (n : Int) (a : DateTime) (inc : Bool)
    (h : n ≠ 0) :
    day_range n a inc = day_range n ⟨a.day, 0⟩ inc := by
  rw [day_range_eq n a inc h, day_range_eq n ⟨a.day, 0⟩ inc h]

theorem C10_witness :
    day_range 1 ⟨5, 77⟩ true = day_range 1 ⟨5, 0⟩ true :=
  C10_time_of_day_irrelevant 1 ⟨5, 77⟩ true (by decide)

end Grigri
